import Mathlib

/-!
Verification development for the OpenAI status-feed monitor (`app.py`).

The core of the program is the per-feed polling engine `watch_feed`,
together with its helpers `content_hash`, `extract_product`, `clean_html`
and `get_timestamp`.  This file gives a shallow embedding of one poll
cycle as a pure step function on the watcher state, and of the poll loop
as a fold over a list of fetch results, and proves the spec's claims
about it.

External collaborators are modelled as parameters of the step function:
* `hash` stands for `hashlib.md5(..).hexdigest()` (`content_hash`); only
  determinism on equal bodies matters to any property proved here, so it
  is kept abstract;
* `parse` stands for `feedparser.parse(body).entries`;
* `now` stands for the formatted `datetime.now(timezone.utc)` fallback
  used by `get_timestamp`.

`broadcast` is modelled by the ordered list of events a poll cycle emits.
Each incident event additionally carries, as ghost metadata, the dedup
key of the entry it was built from (the program broadcasts only the
incident record itself); the step result also records how many times the
feed parser and the classifier were invoked during the cycle, so that
"the parser/classifier is never invoked" claims are statable.
-/

namespace OpenAIStatus

/-- Log levels of the `Log` events (`level` field of the broadcast log). -/
inductive Level where
  | info
  | ok
  | warn
  | error
deriving DecidableEq, Repr

/-- A feed entry as produced by the feed parser (`feedparser` entry).
`content` models `e.content` (a list of content objects; we keep their
`value` strings), `summary` models `e.summary` when the attribute is
present, and the two `*_parsed` fields model `updated_parsed` /
`published_parsed` as (year, month, day, hour, minute, second). -/
structure Entry where
  id : Option String
  link : Option String
  title : Option String
  content : List String
  summary : Option String
  updated_parsed : Option (Nat × Nat × Nat × Nat × Nat × Nat)
  published_parsed : Option (Nat × Nat × Nat × Nat × Nat × Nat)
deriving DecidableEq, Repr

/-- The incident record built by `watch_feed` and broadcast as an
`incident` event. -/
structure Incident where
  ts : String
  provider : String
  product : String
  title : String
  detail : String
  link : String
  is_new : Bool
deriving DecidableEq, Repr

/-- An event broadcast during one poll cycle: an incident or a log line.
The `key` argument of `incident` is ghost metadata: the dedup key of the
entry the incident was built from (not part of the broadcast payload). -/
inductive Event where
  | incident (key : String) (inc : Incident)
  | log (msg : String) (level : Level)
deriving DecidableEq, Repr

/-- The per-feed watcher state: the local variables of `watch_feed`
(`etag`, `last_mod`, `last_hash`, `seen_ids`, `first_run`).  The Python
`set` `seen_ids` is modelled as a duplicate-free list used only through
membership and insertion. -/
structure WState where
  etag : Option String
  last_mod : Option String
  last_hash : Option String
  seen_ids : List String
  first_run : Bool
deriving DecidableEq, Repr

/-- The state of the local variables when `watch_feed` enters its loop. -/
def initState : WState :=
  { etag := none, last_mod := none, last_hash := none,
    seen_ids := [], first_run := true }

/-- An HTTP response: status, body text, and the `ETag` /
`Last-Modified` response headers (`none` when the header is absent). -/
structure Response where
  status : Nat
  body : String
  etagHdr : Option String
  lmodHdr : Option String
deriving DecidableEq, Repr

/-- The outcome of one fetch: a response, or an exception caught by the
`except` block (carrying the formatted exception text). -/
inductive FetchResult where
  | ok (resp : Response)
  | exn (msg : String)
deriving DecidableEq, Repr

/-- The external capabilities one watcher uses: the body digest
(`content_hash`), the feed parser (`feedparser.parse(..).entries`),
the feed's configured `name`, and the formatted current UTC time used
as the `get_timestamp` fallback. -/
structure Ctx where
  hash : String → String
  parse : String → List Entry
  name : String
  now : String

/-- Python truthiness of an optional string: `None` and `""` are falsy
(used for `if server_etag:` and the `or` in the dedup key). -/
def truthy : Option String → Bool
  | none => false
  | some s => !(s == "")

/-- Python `a or b` on strings, where `a` may come from `.get` with no
default: falsy (absent or empty) selects `b`. -/
def pyOr (a b : String) : String :=
  if a = "" then b else a

/-- The dedup key of an entry: `e.get("id") or e.get("link","")`. -/
def dedupKey (e : Entry) : String :=
  pyOr (e.id.getD "") (e.link.getD "")

/-- `content_raw` selection: `e.content[0].value` when `e.content` is a
non-empty list, else `e.summary` when present, else `""`. -/
def content_raw (e : Entry) : String :=
  match e.content with
  | c :: _ => c
  | [] => match e.summary with
    | some s => s
    | none => ""

/-- Zero-padded two-digit field of `strftime`. -/
def pad2 (n : Nat) : String :=
  if n < 10 then "0" ++ toString n else toString n

/-- Zero-padded four-digit year of `strftime("%Y")`. -/
def pad4 (n : Nat) : String :=
  if n < 10 then "000" ++ toString n
  else if n < 100 then "00" ++ toString n
  else if n < 1000 then "0" ++ toString n
  else toString n

/-- `datetime(*val[:6]).strftime("%Y-%m-%d %H:%M:%S")`. -/
def fmtTime : Nat × Nat × Nat × Nat × Nat × Nat → String
  | (y, mo, d, h, mi, s) =>
    pad4 y ++ "-" ++ pad2 mo ++ "-" ++ pad2 d ++ " " ++
      pad2 h ++ ":" ++ pad2 mi ++ ":" ++ pad2 s

/-- `get_timestamp`: the first of `updated_parsed`, `published_parsed`
formatted, else the formatted current UTC time. -/
def get_timestamp (now : String) (e : Entry) : String :=
  match e.updated_parsed with
  | some t => fmtTime t
  | none => match e.published_parsed with
    | some t => fmtTime t
    | none => now

/-- One state of the `re.sub(r"<[^>]+>", " ", raw)` scanner: `none`
outside a candidate tag; `some buf` after an unmatched `<`, with `buf`
the characters read since it (reversed). A `<` directly followed by `>`
is not a match (the class requires at least one character), and an
unclosed `<` is left literally, exactly as the regex behaves. -/
def stripTagsGo : Option (List Char) → List Char → List Char
  | none, [] => []
  | none, c :: rest =>
    if c = '<' then stripTagsGo (some []) rest
    else c :: stripTagsGo none rest
  | some buf, [] => '<' :: buf.reverse
  | some buf, c :: rest =>
    if c = '>' then
      if buf.isEmpty then '<' :: '>' :: stripTagsGo none rest
      else ' ' :: stripTagsGo none rest
    else stripTagsGo (some (c :: buf)) rest

/-- `startsList pat l`: `l` begins with `pat`. -/
def startsList : List Char → List Char → Bool
  | [], _ => true
  | _ :: _, [] => false
  | a :: as, b :: bs => a == b && startsList as bs

/-- `hasSub needle hay`: Python `needle in hay` substring test. -/
def hasSub (needle : List Char) : List Char → Bool
  | [] => startsList needle []
  | c :: rest => startsList needle (c :: rest) || hasSub needle rest

/-- Leftmost, non-overlapping replacement of `pat` by `rep`
(Python `str.replace`), fuelled by the input length so that it is
structurally recursive; every step consumes at least one character, so
fuel `l.length` is always sufficient. -/
def replaceFuel (pat rep : List Char) : Nat → List Char → List Char
  | _, [] => []
  | 0, l => l
  | fuel + 1, c :: rest =>
    if startsList pat (c :: rest) then
      rep ++ replaceFuel pat rep fuel (List.drop (pat.length - 1) rest)
    else
      c :: replaceFuel pat rep fuel rest

/-- Python `str.replace(pat, rep)` on character lists. -/
def replaceAll (pat rep l : List Char) : List Char :=
  replaceFuel pat rep l.length l

/-- The apostrophe character (decoded form of `&#39;`). -/
def apos : Char := Char.ofNat 39

/-- The fixed entity table of `clean_html`, in source order. -/
def entityList : List (List Char × List Char) :=
  [("&nbsp;".data, " ".data), ("&amp;".data, "&".data),
   ("&lt;".data, "<".data), ("&gt;".data, ">".data),
   ("&#39;".data, [apos])]

/-- Python `\s` on the characters the source can produce (space, tab,
newline, carriage return, vertical tab, form feed). -/
def pySpace (c : Char) : Bool :=
  c = ' ' || c = '\t' || c = '\n' || c = '\r' ||
    c = Char.ofNat 11 || c = Char.ofNat 12

/-- Collapse adjacent spaces to one (after every whitespace character
has been mapped to a space, this is `re.sub(r"\s+", " ", ..)`). -/
def squeezeSpaces : List Char → List Char
  | [] => []
  | [c] => [c]
  | a :: b :: rest =>
    if a = ' ' && b = ' ' then squeezeSpaces (b :: rest)
    else a :: squeezeSpaces (b :: rest)

/-- Python `str.strip()`. -/
def pyStrip (l : List Char) : List Char :=
  ((l.dropWhile pySpace).reverse.dropWhile pySpace).reverse

/-- `clean_html`: strip `<...>` tags to spaces, decode the fixed entity
table in order, collapse whitespace runs to single spaces, and trim. -/
def clean_html (raw : String) : String :=
  let t1 := stripTagsGo none raw.data
  let t2 := entityList.foldl (fun acc pr => replaceAll pr.1 pr.2 acc) t1
  String.mk (pyStrip (squeezeSpaces (t2.map (fun c => if pySpace c then ' ' else c))))

/-- Python `.lower()` (ASCII case folding suffices for the rule set). -/
def pyLower (s : String) : String :=
  String.mk (s.data.map Char.toLower)

/-- The ordered `product_map` of `extract_product`, in source order
(Python 3.7+ dict literals iterate in insertion order). -/
def product_map : List (String × List String) :=
  [("Chat Completions / ChatGPT", ["chat completions", "chatgpt", "chat"]),
   ("Responses API",              ["responses api"]),
   ("Assistants API",             ["assistants api", "assistants"]),
   ("Embeddings",                 ["embeddings"]),
   ("Fine-tuning",                ["fine-tun"]),
   ("DALL-E / Images API",        ["dall-e", "image generation", "images api"]),
   ("Whisper / Audio API",        ["whisper", "audio", "speech"]),
   ("Realtime API",               ["realtime"]),
   ("Batch API",                  ["batch"]),
   ("OpenAI API",                 ["api"])]

/-- The rule loop of `extract_product`: first rule with any keyword
occurring in the combined text wins; `"Platform"` when none matches. -/
def firstProduct : List (String × List String) → List Char → String
  | [], _ => "Platform"
  | (p, kws) :: rest, comb =>
    if kws.any (fun kw => hasSub kw.data comb) then p
    else firstProduct rest comb

/-- `extract_product(title, content)`. -/
def extract_product (title content : String) : String :=
  firstProduct product_map (pyLower (title ++ " " ++ content)).data

/-- Python `content[:400]` (a slice counts characters). -/
def takeChars (n : Nat) (s : String) : String :=
  String.mk (s.data.take n)

/-- The incident record built for one entry (the dictionary literal in
`watch_feed`, shared between the bootstrap and the steady-state branch
up to the `is_new` flag). -/
def mkIncident (ctx : Ctx) (isNew : Bool) (e : Entry) : Incident :=
  let content := clean_html (content_raw e)
  { ts := get_timestamp ctx.now e,
    provider := ctx.name,
    product := extract_product (e.title.getD "") content,
    title := e.title.getD "No title",
    detail := takeChars 400 content,
    link := e.link.getD "#",
    is_new := isNew }

/-- The first-run log line
`Connected to {name} — {n} incidents in history. ETag: ...`. -/
def connectedMsg (name : String) (n : Nat) (etagSupport : Bool) : String :=
  "Connected to " ++ name ++ " — " ++ toString n ++
    " incidents in history. ETag: " ++
    (if etagSupport then "supported" else "not supported, using hash fallback")

/-- The incident event emitted on the first run: one bootstrap incident
from `entries[0]` when the list is non-empty, nothing otherwise. -/
def bootstrapEvents (ctx : Ctx) (entries : List Entry) : List Event :=
  match entries with
  | [] => []
  | e :: _ => [Event.incident (dedupKey e) (mkIncident ctx false e)]

/-- `for e in entries: seen_ids.add(e.get("id") or e.get("link",""))`. -/
def addSeen (seen : List String) (entries : List Entry) : List String :=
  entries.foldl (fun acc e => acc.insert (dedupKey e)) seen

/-- The steady-state collection loop: walk the entries in feed order,
keep those whose dedup key is not yet seen, adding each kept key to the
seen set immediately.  Returns (new entries in feed order, final seen
set). -/
def collectNew (seen : List String) : List Entry → List Entry × List String
  | [] => ([], seen)
  | e :: es =>
    if dedupKey e ∈ seen then collectNew seen es
    else
      let r := collectNew (seen.insert (dedupKey e)) es
      (e :: r.1, r.2)

/-- The result of one poll cycle: the updated watcher state, the
broadcast events in order, and ghost instrumentation: how many times
the feed parser ran, how many times the classifier ran, and whether
the fingerprint comparison suppressed processing of a 200 response. -/
structure StepOut where
  state : WState
  events : List Event
  parserCalls : Nat
  classifierCalls : Nat
  usedHashSuppression : Bool
deriving DecidableEq, Repr

/-- The fingerprint-fallback guard of `watch_feed`:
`not first_run and not etag_support` followed by
`current_hash == last_hash`.  Note that `etag_support` is computed from
the **current** response's headers only. -/
def suppCond (ctx : Ctx) (s : WState) (resp : Response) : Bool :=
  !s.first_run && !(truthy resp.etagHdr || truthy resp.lmodHdr) &&
    (s.last_hash == some (ctx.hash resp.body))

/-- The `elif resp.status == 200` block of `watch_feed`: record fresh
validators, run the fingerprint fallback, then the first-run or the
steady-state entry policy. -/
def handle200 (ctx : Ctx) (s : WState) (resp : Response) : StepOut :=
  let etagSupport := truthy resp.etagHdr || truthy resp.lmodHdr
  let etag2 := if truthy resp.etagHdr then resp.etagHdr else s.etag
  let lmod2 := if truthy resp.lmodHdr then resp.lmodHdr else s.last_mod
  let currentHash := ctx.hash resp.body
  if suppCond ctx s resp then
    ⟨{ s with etag := etag2, last_mod := lmod2 },
     [Event.log (ctx.name ++ ": Hash unchanged — no new incidents") Level.ok],
     0, 0, true⟩
  else
    let entries := ctx.parse resp.body
    if s.first_run then
      ⟨{ etag := etag2, last_mod := lmod2, last_hash := some currentHash,
         seen_ids := addSeen s.seen_ids entries, first_run := false },
       Event.log (connectedMsg ctx.name entries.length etagSupport) Level.info
         :: bootstrapEvents ctx entries,
       1, (if entries.isEmpty then 0 else 1), false⟩
    else
      let nw := collectNew s.seen_ids entries
      ⟨{ etag := etag2, last_mod := lmod2, last_hash := some currentHash,
         seen_ids := nw.2, first_run := false },
       (if nw.1.isEmpty then
          [Event.log (ctx.name ++ ": Monitoring... no new incidents") Level.ok]
        else
          nw.1.reverse.map (fun e => Event.incident (dedupKey e) (mkIncident ctx true e))),
       1, nw.1.length, false⟩

/-- One iteration of the `while monitor_running` loop of `watch_feed`,
given the outcome of the fetch. -/
def step (ctx : Ctx) (s : WState) (r : FetchResult) : StepOut :=
  match r with
  | .exn msg =>
    ⟨s, [Event.log (ctx.name ++ " error: " ++ msg) Level.error], 0, 0, false⟩
  | .ok resp =>
    if resp.status = 304 then
      ⟨s, [Event.log (ctx.name ++ ": 304 Not Modified — no new incidents") Level.ok],
       0, 0, false⟩
    else if resp.status = 200 then
      handle200 ctx s resp
    else
      ⟨s, [Event.log (ctx.name ++ ": HTTP " ++ toString resp.status) Level.warn],
       0, 0, false⟩

/-- The poll loop over a list of fetch outcomes: final state and all
events in emission order. -/
def run (ctx : Ctx) (s : WState) : List FetchResult → WState × List Event
  | [] => (s, [])
  | r :: rs =>
    let out := step ctx s r
    let rest := run ctx out.state rs
    (rest.1, out.events ++ rest.2)

/-- Is this event an incident carrying dedup key `k`? -/
def isIncidentFor (k : String) (ev : Event) : Bool :=
  match ev with
  | Event.incident k2 _ => k2 == k
  | Event.log _ _ => false

/-- How many incident events for dedup key `k` a list of events holds. -/
def countKey (k : String) (evs : List Event) : Nat :=
  (evs.filter (isIncidentFor k)).length

/-- The incident records among a list of events, in order. -/
def incidentsOf (evs : List Event) : List Incident :=
  evs.filterMap (fun ev => match ev with
    | Event.incident _ i => some i
    | Event.log _ _ => none)

/-- The loop invariant of `watch_feed`: while `first_run` is still true,
nothing has been recorded as seen. -/
def InvSt (s : WState) : Prop :=
  s.first_run = true → s.seen_ids = []

/-! ### Helper lemmas about the seen-id tracking -/

theorem countKey_append (k : String) (a b : List Event) :
    countKey k (a ++ b) = countKey k a + countKey k b := by
  simp [countKey, List.filter_append]

theorem countKey_map_incident (k : String) (f : Entry → Incident) (l : List Entry) :
    countKey k (l.map (fun e => Event.incident (dedupKey e) (f e))) =
      (l.filter (fun e => dedupKey e == k)).length := by
  simp [countKey, List.filter_map]
  congr 1

theorem addSeen_mono {x : String} {seen : List String} (es : List Entry)
    (hx : x ∈ seen) : x ∈ addSeen seen es := by
  induction es generalizing seen with
  | nil => exact hx
  | cons e es ih => exact ih (List.mem_insert_of_mem hx)

theorem addSeen_mem {e : Entry} {es : List Entry} (seen : List String)
    (he : e ∈ es) : dedupKey e ∈ addSeen seen es := by
  induction es generalizing seen with
  | nil => cases he
  | cons f es ih =>
    rcases List.mem_cons.mp he with rfl | he'
    · exact addSeen_mono es (List.mem_insert_self _ _)
    · exact ih _ he'

theorem collectNew_seen_mono {x : String} (es : List Entry) (seen : List String)
    (hx : x ∈ seen) : x ∈ (collectNew seen es).2 := by
  induction es generalizing seen with
  | nil => exact hx
  | cons e es ih =>
    by_cases h : dedupKey e ∈ seen
    · simp only [collectNew, if_pos h]
      exact ih seen hx
    · simp only [collectNew, if_neg h]
      exact ih _ (List.mem_insert_of_mem hx)

theorem collectNew_mem_seen {e : Entry} (es : List Entry) (seen : List String)
    (he : e ∈ (collectNew seen es).1) : dedupKey e ∈ (collectNew seen es).2 := by
  induction es generalizing seen with
  | nil => cases he
  | cons f es ih =>
    by_cases h : dedupKey f ∈ seen
    · simp only [collectNew, if_pos h] at he ⊢
      exact ih seen he
    · simp only [collectNew, if_neg h] at he ⊢
      rcases List.mem_cons.mp he with rfl | he'
      · exact collectNew_seen_mono es _ (List.mem_insert_self _ _)
      · exact ih _ he'

theorem collectNew_not_seen {e : Entry} (es : List Entry) (seen : List String)
    (he : e ∈ (collectNew seen es).1) : dedupKey e ∉ seen := by
  induction es generalizing seen with
  | nil => cases he
  | cons f es ih =>
    by_cases h : dedupKey f ∈ seen
    · simp only [collectNew, if_pos h] at he
      exact ih seen he
    · simp only [collectNew, if_neg h] at he
      rcases List.mem_cons.mp he with rfl | he'
      · exact h
      · intro hmem
        exact ih _ he' (List.mem_insert_of_mem hmem)

theorem collectNew_count_zero {k : String} (es : List Entry) (seen : List String)
    (hk : k ∈ seen) :
    ((collectNew seen es).1.filter (fun e => dedupKey e == k)).length = 0 := by
  rw [List.length_eq_zero, List.filter_eq_nil_iff]
  intro e he
  simp only [beq_iff_eq]
  intro hkey
  exact collectNew_not_seen es seen he (hkey ▸ hk)

theorem collectNew_count_le {k : String} (es : List Entry) (seen : List String) :
    ((collectNew seen es).1.filter (fun e => dedupKey e == k)).length ≤ 1 := by
  induction es generalizing seen with
  | nil => simp [collectNew]
  | cons f es ih =>
    by_cases h : dedupKey f ∈ seen
    · simp only [collectNew, if_pos h]
      exact ih seen
    · simp only [collectNew, if_neg h]
      rw [List.filter_cons]
      by_cases hk : (dedupKey f == k) = true
      · rw [if_pos hk]
        have hk' : k ∈ List.insert (dedupKey f) seen := by
          rw [List.mem_insert_iff]
          exact Or.inl (beq_iff_eq.mp hk).symm
        rw [List.length_cons, collectNew_count_zero es _ hk']
      · rw [if_neg hk]
        exact ih _

theorem collectNew_filter {es : List Entry} {seen : List String}
    (hnd : (es.map dedupKey).Nodup) :
    (collectNew seen es).1 = es.filter (fun e => !(decide (dedupKey e ∈ seen))) := by
  induction es generalizing seen with
  | nil => rfl
  | cons f es ih =>
    simp only [List.map_cons, List.nodup_cons] at hnd
    by_cases h : dedupKey f ∈ seen
    · rw [List.filter_cons, if_neg (by simp [h])]
      simp only [collectNew, if_pos h]
      exact ih hnd.2
    · rw [List.filter_cons, if_pos (by simp [h])]
      simp only [collectNew, if_neg h]
      rw [ih hnd.2]
      congr 1
      apply List.filter_congr
      intro e he
      have hne : dedupKey e ≠ dedupKey f := by
        intro heq
        exact hnd.1 (heq ▸ List.mem_map_of_mem dedupKey he)
      simp [List.mem_insert_iff, h, hne]

/-! ### Branch equations for `handle200` and `step` -/

theorem countKey_cons_log (k m : String) (lv : Level) (evs : List Event) :
    countKey k (Event.log m lv :: evs) = countKey k evs := rfl

theorem countKey_nil (k : String) : countKey k [] = 0 := rfl

theorem handle200_suppressed {ctx : Ctx} {s : WState} {resp : Response}
    (h : suppCond ctx s resp = true) :
    handle200 ctx s resp =
      ⟨{ s with
          etag := if truthy resp.etagHdr then resp.etagHdr else s.etag,
          last_mod := if truthy resp.lmodHdr then resp.lmodHdr else s.last_mod },
       [Event.log (ctx.name ++ ": Hash unchanged — no new incidents") Level.ok],
       0, 0, true⟩ := by
  simp only [handle200]
  rw [if_pos h]

theorem handle200_first {ctx : Ctx} {s : WState} {resp : Response}
    (hfr : s.first_run = true) :
    handle200 ctx s resp =
      ⟨{ etag := if truthy resp.etagHdr then resp.etagHdr else s.etag,
         last_mod := if truthy resp.lmodHdr then resp.lmodHdr else s.last_mod,
         last_hash := some (ctx.hash resp.body),
         seen_ids := addSeen s.seen_ids (ctx.parse resp.body),
         first_run := false },
       Event.log (connectedMsg ctx.name (ctx.parse resp.body).length
           (truthy resp.etagHdr || truthy resp.lmodHdr)) Level.info
         :: bootstrapEvents ctx (ctx.parse resp.body),
       1, (if (ctx.parse resp.body).isEmpty then 0 else 1), false⟩ := by
  have hsup : suppCond ctx s resp = false := by
    simp [suppCond, hfr]
  simp only [handle200]
  rw [hsup]
  simp only [Bool.false_eq_true, if_false]
  rw [hfr]
  simp only [if_true]

theorem handle200_steady {ctx : Ctx} {s : WState} {resp : Response}
    (hfr : s.first_run = false)
    (hch : (truthy resp.etagHdr || truthy resp.lmodHdr) = true ∨
           s.last_hash ≠ some (ctx.hash resp.body)) :
    handle200 ctx s resp =
      ⟨{ etag := if truthy resp.etagHdr then resp.etagHdr else s.etag,
         last_mod := if truthy resp.lmodHdr then resp.lmodHdr else s.last_mod,
         last_hash := some (ctx.hash resp.body),
         seen_ids := (collectNew s.seen_ids (ctx.parse resp.body)).2,
         first_run := false },
       (if (collectNew s.seen_ids (ctx.parse resp.body)).1.isEmpty then
          [Event.log (ctx.name ++ ": Monitoring... no new incidents") Level.ok]
        else
          (collectNew s.seen_ids (ctx.parse resp.body)).1.reverse.map
            (fun e => Event.incident (dedupKey e) (mkIncident ctx true e))),
       1, (collectNew s.seen_ids (ctx.parse resp.body)).1.length, false⟩ := by
  have hsup : suppCond ctx s resp = false := by
    rcases hch with h | h
    · simp [suppCond, h]
    · simp [suppCond, beq_eq_false_iff_ne.mpr h]
  simp only [handle200]
  rw [hsup]
  simp only [Bool.false_eq_true, if_false]
  rw [hfr]
  simp only [Bool.false_eq_true, if_false]

theorem step_exn (ctx : Ctx) (s : WState) (msg : String) :
    step ctx s (.exn msg) =
      ⟨s, [Event.log (ctx.name ++ " error: " ++ msg) Level.error], 0, 0, false⟩ := rfl

theorem step_ok_304 {ctx : Ctx} {s : WState} {resp : Response}
    (h : resp.status = 304) :
    step ctx s (.ok resp) =
      ⟨s, [Event.log (ctx.name ++ ": 304 Not Modified — no new incidents") Level.ok],
       0, 0, false⟩ := by
  simp only [step]
  rw [if_pos h]

theorem step_ok_200 {ctx : Ctx} {s : WState} {resp : Response}
    (h : resp.status = 200) :
    step ctx s (.ok resp) = handle200 ctx s resp := by
  simp only [step]
  rw [if_neg (by omega), if_pos h]

theorem step_ok_other {ctx : Ctx} {s : WState} {resp : Response}
    (h304 : resp.status ≠ 304) (h200 : resp.status ≠ 200) :
    step ctx s (.ok resp) =
      ⟨s, [Event.log (ctx.name ++ ": HTTP " ++ toString resp.status) Level.warn],
       0, 0, false⟩ := by
  simp only [step]
  rw [if_neg h304, if_neg h200]

/-! ### Frame and counting lemmas about one poll cycle -/

theorem suppCond_cases {ctx : Ctx} {s : WState} {resp : Response}
    (hfr : s.first_run = false) (hsup : ¬suppCond ctx s resp = true) :
    (truthy resp.etagHdr || truthy resp.lmodHdr) = true ∨
      s.last_hash ≠ some (ctx.hash resp.body) := by
  by_contra hcon
  push_neg at hcon
  apply hsup
  have h1 : (truthy resp.etagHdr || truthy resp.lmodHdr) = false :=
    Bool.eq_false_iff.mpr hcon.1
  simp [suppCond, hfr, hcon.2, h1]

theorem first_run_false_of_mem {s : WState} {k : String}
    (hInv : InvSt s) (hk : k ∈ s.seen_ids) : s.first_run = false := by
  cases hb : s.first_run
  · rfl
  · rw [hInv hb] at hk
    exact absurd hk (List.not_mem_nil k)

theorem step_seen_mono (ctx : Ctx) (s : WState) (r : FetchResult) {x : String}
    (hx : x ∈ s.seen_ids) : x ∈ (step ctx s r).state.seen_ids := by
  cases r with
  | exn msg => exact hx
  | ok resp =>
    by_cases h304 : resp.status = 304
    · rw [step_ok_304 h304]
      exact hx
    · by_cases h200 : resp.status = 200
      · rw [step_ok_200 h200]
        by_cases hsup : suppCond ctx s resp = true
        · rw [handle200_suppressed hsup]
          exact hx
        · by_cases hfr : s.first_run = true
          · rw [handle200_first hfr]
            exact addSeen_mono _ hx
          · have hfr' : s.first_run = false := by
              cases hb : s.first_run
              · rfl
              · exact absurd hb hfr
            rw [handle200_steady hfr' (suppCond_cases hfr' hsup)]
            exact collectNew_seen_mono _ _ hx
      · rw [step_ok_other h304 h200]
        exact hx

theorem step_inv {ctx : Ctx} {s : WState} (r : FetchResult)
    (h : InvSt s) : InvSt (step ctx s r).state := by
  cases r with
  | exn msg => exact h
  | ok resp =>
    by_cases h304 : resp.status = 304
    · rw [step_ok_304 h304]
      exact h
    · by_cases h200 : resp.status = 200
      · rw [step_ok_200 h200]
        by_cases hsup : suppCond ctx s resp = true
        · rw [handle200_suppressed hsup]
          intro hfr
          exact h hfr
        · by_cases hfr : s.first_run = true
          · rw [handle200_first hfr]
            intro hcon
            cases hcon
          · have hfr' : s.first_run = false := by
              cases hb : s.first_run
              · rfl
              · exact absurd hb hfr
            rw [handle200_steady hfr' (suppCond_cases hfr' hsup)]
            intro hcon
            cases hcon
      · rw [step_ok_other h304 h200]
        exact h

theorem countKey_single_incident (k k2 : String) (i : Incident) :
    countKey k [Event.incident k2 i] = if (k2 == k) = true then 1 else 0 := by
  by_cases h : (k2 == k) = true <;>
    simp [countKey, isIncidentFor, List.filter, h]

theorem step_count_le (ctx : Ctx) (s : WState) (r : FetchResult) (k : String) :
    countKey k (step ctx s r).events ≤ 1 := by
  cases r with
  | exn msg =>
    rw [step_exn]
    simp [countKey_cons_log, countKey_nil]
  | ok resp =>
    by_cases h304 : resp.status = 304
    · rw [step_ok_304 h304]
      simp [countKey_cons_log, countKey_nil]
    · by_cases h200 : resp.status = 200
      · rw [step_ok_200 h200]
        by_cases hsup : suppCond ctx s resp = true
        · rw [handle200_suppressed hsup]
          simp [countKey_cons_log, countKey_nil]
        · by_cases hfr : s.first_run = true
          · rw [handle200_first hfr]
            rw [countKey_cons_log]
            cases hent : ctx.parse resp.body with
            | nil => simp [bootstrapEvents, countKey_nil]
            | cons e es =>
              simp only [bootstrapEvents]
              rw [countKey_single_incident]
              split <;> omega
          · have hfr' : s.first_run = false := by
              cases hb : s.first_run
              · rfl
              · exact absurd hb hfr
            rw [handle200_steady hfr' (suppCond_cases hfr' hsup)]
            by_cases hemp :
                (collectNew s.seen_ids (ctx.parse resp.body)).1.isEmpty = true
            · rw [if_pos hemp]
              simp [countKey_cons_log, countKey_nil]
            · rw [if_neg hemp, countKey_map_incident, List.filter_reverse,
                List.length_reverse]
              exact collectNew_count_le _ _
      · rw [step_ok_other h304 h200]
        simp [countKey_cons_log, countKey_nil]

theorem step_count_zero_of_seen {ctx : Ctx} {s : WState} {k : String}
    (r : FetchResult) (hfr : s.first_run = false) (hk : k ∈ s.seen_ids) :
    countKey k (step ctx s r).events = 0 := by
  cases r with
  | exn msg =>
    rw [step_exn]
    simp [countKey_cons_log, countKey_nil]
  | ok resp =>
    by_cases h304 : resp.status = 304
    · rw [step_ok_304 h304]
      simp [countKey_cons_log, countKey_nil]
    · by_cases h200 : resp.status = 200
      · rw [step_ok_200 h200]
        by_cases hsup : suppCond ctx s resp = true
        · rw [handle200_suppressed hsup]
          simp [countKey_cons_log, countKey_nil]
        · rw [handle200_steady hfr (suppCond_cases hfr hsup)]
          by_cases hemp :
              (collectNew s.seen_ids (ctx.parse resp.body)).1.isEmpty = true
          · rw [if_pos hemp]
            simp [countKey_cons_log, countKey_nil]
          · rw [if_neg hemp, countKey_map_incident, List.filter_reverse,
              List.length_reverse]
            exact collectNew_count_zero _ _ hk
      · rw [step_ok_other h304 h200]
        simp [countKey_cons_log, countKey_nil]

theorem step_count_mem {ctx : Ctx} {s : WState} {k : String} (r : FetchResult)
    (h : 1 ≤ countKey k (step ctx s r).events) :
    k ∈ (step ctx s r).state.seen_ids := by
  cases r with
  | exn msg =>
    rw [step_exn] at h
    simp [countKey_cons_log, countKey_nil] at h
  | ok resp =>
    by_cases h304 : resp.status = 304
    · rw [step_ok_304 h304] at h
      simp [countKey_cons_log, countKey_nil] at h
    · by_cases h200 : resp.status = 200
      · rw [step_ok_200 h200] at h ⊢
        by_cases hsup : suppCond ctx s resp = true
        · rw [handle200_suppressed hsup] at h
          simp [countKey_cons_log, countKey_nil] at h
        · by_cases hfr : s.first_run = true
          · rw [handle200_first hfr] at h ⊢
            rw [countKey_cons_log] at h
            cases hent : ctx.parse resp.body with
            | nil =>
              rw [hent] at h
              simp [bootstrapEvents, countKey_nil] at h
            | cons e es =>
              rw [hent] at h
              simp only [bootstrapEvents] at h
              rw [countKey_single_incident] at h
              by_cases hek : (dedupKey e == k) = true
              · have : dedupKey e = k := beq_iff_eq.mp hek
                subst this
                exact addSeen_mem _ (List.mem_cons_self e es)
              · rw [if_neg hek] at h
                omega
          · have hfr' : s.first_run = false := by
              cases hb : s.first_run
              · rfl
              · exact absurd hb hfr
            rw [handle200_steady hfr' (suppCond_cases hfr' hsup)] at h ⊢
            by_cases hemp :
                (collectNew s.seen_ids (ctx.parse resp.body)).1.isEmpty = true
            · rw [if_pos hemp] at h
              simp [countKey_cons_log, countKey_nil] at h
            · rw [if_neg hemp, countKey_map_incident, List.filter_reverse,
                List.length_reverse] at h
              have hpos :
                  0 < ((collectNew s.seen_ids (ctx.parse resp.body)).1.filter
                    (fun e => dedupKey e == k)).length := h
              obtain ⟨e, he⟩ := List.exists_mem_of_length_pos hpos
              obtain ⟨he1, he2⟩ := List.mem_filter.mp he
              have : dedupKey e = k := beq_iff_eq.mp he2
              subst this
              exact collectNew_mem_seen _ _ he1
      · rw [step_ok_other h304 h200] at h
        simp [countKey_cons_log, countKey_nil] at h

/-! ### The poll loop -/

theorem run_nil (ctx : Ctx) (s : WState) : run ctx s [] = (s, []) := rfl

theorem run_cons (ctx : Ctx) (s : WState) (r : FetchResult) (rs : List FetchResult) :
    run ctx s (r :: rs) =
      ((run ctx (step ctx s r).state rs).1,
       (step ctx s r).events ++ (run ctx (step ctx s r).state rs).2) := rfl

/-- Over any sequence of poll outcomes from a state satisfying the loop
invariant, at most one incident is ever emitted for a given dedup key,
and none at all if the key is already seen. -/
theorem run_count (ctx : Ctx) (k : String) (rs : List FetchResult) :
    ∀ (s : WState), InvSt s →
      countKey k (run ctx s rs).2 ≤ 1 ∧
        (k ∈ s.seen_ids → countKey k (run ctx s rs).2 = 0) := by
  induction rs with
  | nil =>
    intro s _
    exact ⟨by simp [run_nil, countKey_nil], fun _ => by simp [run_nil, countKey_nil]⟩
  | cons r rs ih =>
    intro s hInv
    have hInv' : InvSt (step ctx s r).state := step_inv r hInv
    have ih' := ih (step ctx s r).state hInv'
    rw [run_cons, countKey_append]
    constructor
    · by_cases hk : k ∈ s.seen_ids
      · have hfr : s.first_run = false := first_run_false_of_mem hInv hk
        rw [step_count_zero_of_seen r hfr hk, ih'.2 (step_seen_mono ctx s r hk)]
        omega
      · by_cases hone : 1 ≤ countKey k (step ctx s r).events
        · have hk' := step_count_mem r hone
          rw [ih'.2 hk']
          have := step_count_le ctx s r k
          omega
        · have h0 : countKey k (step ctx s r).events = 0 := by omega
          rw [h0]
          have := ih'.1
          omega
    · intro hk
      have hfr : s.first_run = false := first_run_false_of_mem hInv hk
      rw [step_count_zero_of_seen r hfr hk, ih'.2 (step_seen_mono ctx s r hk)]

/-! ### Substring and classifier lemmas -/

theorem hasSub_nil (t : List Char) : hasSub [] t = true := by
  cases t <;> rfl

theorem startsList_append {n h : List Char} (t : List Char)
    (hs : startsList n h = true) : startsList n (h ++ t) = true := by
  induction n generalizing h with
  | nil => rfl
  | cons a as ih =>
    cases h with
    | nil => cases hs
    | cons b bs =>
      simp only [List.cons_append, startsList, Bool.and_eq_true] at hs ⊢
      exact ⟨hs.1, ih hs.2⟩

theorem hasSub_append_right {n h : List Char} (t : List Char)
    (hs : hasSub n h = true) : hasSub n (h ++ t) = true := by
  induction h with
  | nil =>
    cases n with
    | nil => exact hasSub_nil t
    | cons a as => cases hs
  | cons c rest ih =>
    simp only [List.cons_append, hasSub, Bool.or_eq_true] at hs ⊢
    rcases hs with hs | hs
    · exact Or.inl (startsList_append t hs)
    · exact Or.inr (ih hs)

theorem firstProduct_head_match {p : String} {kws : List String}
    {rest : List (String × List String)} {comb : List Char}
    (h : kws.any (fun kw => hasSub kw.data comb) = true) :
    firstProduct ((p, kws) :: rest) comb = p := by
  simp [firstProduct, h]

theorem firstProduct_eq_find (rules : List (String × List String)) (comb : List Char) :
    firstProduct rules comb =
      ((rules.find? (fun pr => pr.2.any (fun kw => hasSub kw.data comb))).map
        Prod.fst).getD "Platform" := by
  induction rules with
  | nil => rfl
  | cons pr rest ih =>
    rcases pr with ⟨p, kws⟩
    by_cases h : (kws.any (fun kw => hasSub kw.data comb)) = true
    · have hf : List.find? (fun pr : String × List String =>
          pr.2.any (fun kw => hasSub kw.data comb)) ((p, kws) :: rest) =
            some (p, kws) :=
        List.find?_cons_of_pos rest h
      rw [firstProduct_head_match h, hf]
      rfl
    · have hf : List.find? (fun pr : String × List String =>
          pr.2.any (fun kw => hasSub kw.data comb)) ((p, kws) :: rest) =
            List.find? (fun pr : String × List String =>
              pr.2.any (fun kw => hasSub kw.data comb)) rest :=
        List.find?_cons_of_neg rest h
      rw [hf, ← ih]
      simp [firstProduct, h]

/-! ### Incident extraction lemmas -/

theorem incidentsOf_nil : incidentsOf [] = [] := rfl

theorem incidentsOf_cons_log (m : String) (lv : Level) (evs : List Event) :
    incidentsOf (Event.log m lv :: evs) = incidentsOf evs := rfl

theorem incidentsOf_cons_incident (k : String) (i : Incident) (evs : List Event) :
    incidentsOf (Event.incident k i :: evs) = i :: incidentsOf evs := rfl

theorem incidentsOf_map_incident (f : Entry → Incident) (l : List Entry) :
    incidentsOf (l.map (fun e => Event.incident (dedupKey e) (f e))) = l.map f := by
  induction l with
  | nil => rfl
  | cons e es ih =>
    simp only [List.map_cons, incidentsOf_cons_incident, ih]

/-! ### Concrete fixtures used by witnesses and counterexamples -/

/-- A stand-in digest for `content_hash`; `content_hash` is deterministic,
so on the concrete runs below (which only ever compare digests of equal
or unequal short bodies) the identity behaves exactly like md5. -/
def idHash : String → String := fun s => s

def entA : Entry :=
  { id := some "A", link := some "https://a", title := some "alpha outage",
    content := ["<p>alpha detail</p>"], summary := none,
    updated_parsed := none, published_parsed := none }

def entB : Entry :=
  { id := some "B", link := some "https://b", title := some "beta outage",
    content := [], summary := some "beta detail", updated_parsed := none,
    published_parsed := none }

def entC : Entry :=
  { id := some "C", link := some "https://c", title := some "gamma outage",
    content := [], summary := none, updated_parsed := none,
    published_parsed := none }

/-- A feed whose parser always yields the two entries `entA`, `entB`. -/
def ctxAB : Ctx :=
  { hash := idHash, parse := fun _ => [entA, entB], name := "feed",
    now := "2026-01-01 00:00:00" }

/-- A feed whose parser always yields `[entC, entB, entA]` (newest first). -/
def ctxCBA : Ctx :=
  { hash := idHash, parse := fun _ => [entC, entB, entA], name := "feed",
    now := "2026-01-01 00:00:00" }

/-- A feed whose parser always yields no entries. -/
def ctxEmpty : Ctx :=
  { hash := idHash, parse := fun _ => [], name := "feed", now := "now" }

/-- A steady state whose seen set already holds the key `"C"` and whose
stored fingerprint differs from the digests of the bodies polled below. -/
def stSeenC : WState :=
  { etag := none, last_mod := none, last_hash := some "h0",
    seen_ids := ["C"], first_run := false }

/-! ### The spec's claims -/

/-- Claim C5: a poll cycle whose fetch returns HTTP 304 emits exactly one
`ok`-level log event, no incident, never invokes the feed parser or the
classifier, and leaves the watcher state (etag, lastModified,
lastFingerprint, seenIds, isFirstPoll) unchanged. -/
theorem c5_not_modified (ctx : Ctx) (s : WState) (body : String)
    (et lm : Option String) :
    step ctx s (.ok ⟨304, body, et, lm⟩) =
      ⟨s, [Event.log (ctx.name ++ ": 304 Not Modified — no new incidents") Level.ok],
       0, 0, false⟩ := rfl

/-- Claim C8: a poll cycle ending in a transport failure — an unexpected
HTTP status (neither 200 nor 304), or an exception such as a timeout or
connection error — emits a single warn- resp. error-level log, leaves
every field of the watcher state unchanged, emits no incident, and the
loop goes on to process the remaining poll cycles from the same state. -/
theorem c8_transport_failure (ctx : Ctx) (s : WState) (status : Nat)
    (body : String) (et lm : Option String) (msg : String)
    (rest : List FetchResult)
    (h304 : status ≠ 304) (h200 : status ≠ 200) :
    step ctx s (.ok ⟨status, body, et, lm⟩) =
      ⟨s, [Event.log (ctx.name ++ ": HTTP " ++ toString status) Level.warn],
       0, 0, false⟩ ∧
    step ctx s (.exn msg) =
      ⟨s, [Event.log (ctx.name ++ " error: " ++ msg) Level.error], 0, 0, false⟩ ∧
    run ctx s (.ok ⟨status, body, et, lm⟩ :: rest) =
      ((run ctx s rest).1,
       Event.log (ctx.name ++ ": HTTP " ++ toString status) Level.warn
         :: (run ctx s rest).2) ∧
    run ctx s (.exn msg :: rest) =
      ((run ctx s rest).1,
       Event.log (ctx.name ++ " error: " ++ msg) Level.error
         :: (run ctx s rest).2) := by
  have h1 := @step_ok_other ctx s ⟨status, body, et, lm⟩ h304 h200
  refine ⟨h1, rfl, ?_, ?_⟩
  · rw [run_cons, h1]
    rfl
  · rw [run_cons, step_exn]
    rfl

/-- Witness for C8 at a concrete input: HTTP 500 and a timeout
exception against the `ctxAB` feed from its initial state. -/
theorem c8_transport_failure_witness :
    step ctxAB initState (.ok ⟨500, "x", none, none⟩) =
      ⟨initState, [Event.log "feed: HTTP 500" Level.warn], 0, 0, false⟩ ∧
    step ctxAB initState (.exn "TimeoutError: timed out") =
      ⟨initState, [Event.log "feed error: TimeoutError: timed out" Level.error],
       0, 0, false⟩ ∧
    run ctxAB initState [.ok ⟨500, "x", none, none⟩] =
      ((run ctxAB initState []).1,
       Event.log "feed: HTTP 500" Level.warn :: (run ctxAB initState []).2) ∧
    run ctxAB initState [.exn "TimeoutError: timed out"] =
      ((run ctxAB initState []).1,
       Event.log "feed error: TimeoutError: timed out" Level.error
         :: (run ctxAB initState []).2) :=
  c8_transport_failure ctxAB initState 500 "x" none none
    "TimeoutError: timed out" [] (by decide) (by decide)

/-- The dedup key as the spec words it: the id when it is a non-empty
string, otherwise the link when that is a non-empty string, otherwise
the empty string. -/
def specDedupKey (e : Entry) : String :=
  match e.id with
  | some i => if i = "" then specLinkPart e else i
  | none => specLinkPart e
where
  /-- The link fallback of the spec's dedup key. -/
  specLinkPart (e : Entry) : String :=
    match e.link with
    | some l => if l = "" then "" else l
    | none => ""

/-- Claim C10: the dedup key is the entry id when non-empty, else the
link when non-empty, else the empty string; an entry with a present but
empty id is deduplicated by its link, and entries with falsy id and
absent or empty link all map to the empty-string key. -/
theorem c10_dedup_key :
    (∀ e : Entry, dedupKey e = specDedupKey e) ∧
    dedupKey { id := some "", link := some "https://x", title := none,
               content := [], summary := none, updated_parsed := none,
               published_parsed := none } = "https://x" ∧
    dedupKey { id := some "", link := some "", title := none, content := [],
               summary := none, updated_parsed := none,
               published_parsed := none } = "" ∧
    dedupKey { id := none, link := none, title := none, content := [],
               summary := none, updated_parsed := none,
               published_parsed := none } = "" := by
  refine ⟨?_, by decide, by decide, by decide⟩
  intro e
  rcases e with ⟨id, link, _, _, _, _, _⟩
  cases id with
  | none =>
    cases link with
    | none => rfl
    | some l =>
      by_cases hl : l = "" <;>
        simp [dedupKey, pyOr, specDedupKey, specDedupKey.specLinkPart, hl]
  | some i =>
    by_cases hi : i = ""
    · cases link with
      | none =>
        simp [dedupKey, pyOr, specDedupKey, specDedupKey.specLinkPart, hi]
      | some l =>
        by_cases hl : l = "" <;>
          simp [dedupKey, pyOr, specDedupKey, specDedupKey.specLinkPart, hi, hl]
    · simp [dedupKey, pyOr, specDedupKey, specDedupKey.specLinkPart, hi]

/-- Claim C7: the classifier scans its rules in their fixed order and
returns the label of the first rule with a case-insensitive substring
match against `title ++ " " ++ content`, falling back to `"Platform"`;
in particular the title `"ChatGPT and API outage"` classifies as
`"Chat Completions / ChatGPT"` (and never as `"OpenAI API"`) whatever
the content is. -/
theorem c7_classifier_priority :
    (∀ content : String,
        extract_product "ChatGPT and API outage" content =
          "Chat Completions / ChatGPT" ∧
        extract_product "ChatGPT and API outage" content ≠ "OpenAI API") ∧
    (∀ title content : String,
        extract_product title content =
          ((product_map.find? (fun pr => pr.2.any
              (fun kw => hasSub kw.data
                (pyLower (title ++ " " ++ content)).data))).map
            Prod.fst).getD "Platform") ∧
    extract_product "status page degraded" "all systems" = "Platform" := by
  refine ⟨?_, fun t c => firstProduct_eq_find _ _, by decide⟩
  intro c
  have hdata : (pyLower ("ChatGPT and API outage" ++ " " ++ c)).data =
      "chatgpt and api outage ".data ++ c.data.map Char.toLower := by
    show ((("ChatGPT and API outage" ++ " ") ++ c).data.map Char.toLower) = _
    rw [String.data_append, List.map_append]
    congr 1
  have hkey : hasSub "chatgpt".data
      (pyLower ("ChatGPT and API outage" ++ " " ++ c)).data = true := by
    rw [hdata]
    exact hasSub_append_right _ (by decide)
  have hany : (["chat completions", "chatgpt", "chat"].any
      (fun kw => hasSub kw.data
        (pyLower ("ChatGPT and API outage" ++ " " ++ c)).data)) = true := by
    simp only [List.any_cons, List.any_nil, hkey, Bool.or_true, Bool.true_or,
      Bool.or_false]
  have hmain : extract_product "ChatGPT and API outage" c =
      "Chat Completions / ChatGPT" := by
    unfold extract_product
    rw [show product_map =
      ("Chat Completions / ChatGPT", ["chat completions", "chatgpt", "chat"])
        :: product_map.tail from rfl]
    exact firstProduct_head_match hany
  exact ⟨hmain, by rw [hmain]; decide⟩

/-- A feed whose parser always yields the single entry `entA`. -/
def ctxA : Ctx :=
  { hash := idHash, parse := fun _ => [entA], name := "feed",
    now := "2026-01-01 00:00:00" }

/-- A steady state whose seen set already holds the key `"B"`. -/
def stSeenB : WState :=
  { etag := none, last_mod := none, last_hash := some "h0",
    seen_ids := ["B"], first_run := false }

/-- A steady state whose seen set already holds the key `"A"`. -/
def stSeenA : WState :=
  { etag := none, last_mod := none, last_hash := some "h0",
    seen_ids := ["A"], first_run := false }

/-- Claim C1 is false on the code: the fingerprint fallback is gated on
the validators of the **current** response, not on whether a validator
was ever returned.  Here the first 200 response carries an `ETag`
(recorded in the state), yet the next 200 response, which carries no
validator, is still suppressed by fingerprint comparison. -/
theorem c1_counterexample :
    (step ctxEmpty initState (.ok ⟨200, "b", some "E1", none⟩)).state.etag =
      some "E1" ∧
    (step ctxEmpty
        (step ctxEmpty initState (.ok ⟨200, "b", some "E1", none⟩)).state
        (.ok ⟨200, "b", none, none⟩)).usedHashSuppression = true :=
  ⟨rfl, rfl⟩

/-- Claim C1 (amended): fingerprint comparison suppresses processing of a
200 poll exactly when the poll is not the first, the current response
carries neither validator header, and the body digest equals the stored
one — prior validators do not disable the fallback. -/
theorem c1_hash_suppression_iff (ctx : Ctx) (s : WState) (body : String)
    (et lm : Option String) :
    (step ctx s (.ok ⟨200, body, et, lm⟩)).usedHashSuppression = true ↔
      (s.first_run = false ∧ truthy et = false ∧ truthy lm = false ∧
        s.last_hash = some (ctx.hash body)) := by
  rw [step_ok_200 rfl]
  constructor
  · intro h
    by_cases hsup : suppCond ctx s ⟨200, body, et, lm⟩ = true
    · simp only [suppCond, Bool.and_eq_true, Bool.not_eq_true',
        Bool.or_eq_false_iff, beq_iff_eq] at hsup
      exact ⟨hsup.1.1, hsup.1.2.1, hsup.1.2.2, hsup.2⟩
    · by_cases hfr : s.first_run = true
      · rw [handle200_first hfr] at h
        cases h
      · have hfr' : s.first_run = false := by
          cases hb : s.first_run
          · rfl
          · exact absurd hb hfr
        rw [handle200_steady hfr' (suppCond_cases hfr' hsup)] at h
        cases h
  · rintro ⟨h1, h2, h3, h4⟩
    have hsup : suppCond ctx s ⟨200, body, et, lm⟩ = true := by
      simp [suppCond, h1, h2, h3, h4]
    rw [handle200_suppressed hsup]

/-- Claim C2 is false as stated ("exactly one"): an entry that is present
on the first poll but is not the newest one is marked seen without ever
being emitted, so a key appearing in two successive polls can yield zero
incidents.  Here `entB` is returned by both polls and no incident for
its key is ever broadcast. -/
theorem c2_counterexample :
    ctxAB.parse "b1" = [entA, entB] ∧
    ctxAB.parse "b2" = [entA, entB] ∧
    countKey (dedupKey entB)
      (run ctxAB initState
        [.ok ⟨200, "b1", none, none⟩, .ok ⟨200, "b2", none, none⟩]).2 = 0 := by
  refine ⟨rfl, rfl, ?_⟩
  decide

/-- Claim C2 (amended): over a watcher's lifetime at most one incident is
emitted per dedup key; a key already in `seen_ids` is never emitted
again, and any emitted key is in `seen_ids` afterwards. -/
theorem c2_at_most_once (ctx : Ctx) (k : String) :
    (∀ polls : List FetchResult,
        countKey k (run ctx initState polls).2 ≤ 1) ∧
    (∀ (s : WState) (r : FetchResult),
        s.first_run = false → k ∈ s.seen_ids →
          countKey k (step ctx s r).events = 0) ∧
    (∀ (s : WState) (r : FetchResult),
        1 ≤ countKey k (step ctx s r).events →
          k ∈ (step ctx s r).state.seen_ids) := by
  refine ⟨?_, ?_, ?_⟩
  · intro polls
    exact (run_count ctx k polls initState (fun _ => rfl)).1
  · intro s r hfr hk
    exact step_count_zero_of_seen r hfr hk
  · intro s r h
    exact step_count_mem r h

/-- Witness for C2 at concrete inputs: a two-poll run, a step from a
state that has already seen `"B"`, and a step that emits `"A"`. -/
theorem c2_at_most_once_witness :
    countKey "B" (run ctxAB initState
      [.ok ⟨200, "b1", none, none⟩, .ok ⟨200, "b2", none, none⟩]).2 ≤ 1 ∧
    countKey "B" (step ctxAB stSeenB (.ok ⟨200, "b2", none, none⟩)).events = 0 ∧
    "A" ∈ (step ctxAB stSeenC (.ok ⟨200, "b2", none, none⟩)).state.seen_ids :=
  ⟨(c2_at_most_once ctxAB "B").1 _,
   (c2_at_most_once ctxAB "B").2.1 stSeenB _ rfl (by decide),
   (c2_at_most_once ctxAB "A").2.2 stSeenC _ (by decide)⟩

/-- Claim C3: on a feed's first successful (HTTP 200) poll, the watcher
emits at most one incident — built from the first entry with
`is_new = false` — and none when the feed is empty; every returned
entry's dedup key is recorded in `seen_ids`, and no later poll ever
emits an incident for any of those keys. -/
theorem c3_first_poll (ctx : Ctx) (s : WState) (body : String)
    (et lm : Option String) (hfr : s.first_run = true) :
    incidentsOf (step ctx s (.ok ⟨200, body, et, lm⟩)).events =
      (match ctx.parse body with
       | [] => []
       | e :: _ => [mkIncident ctx false e]) ∧
    (∀ e ∈ ctx.parse body,
        dedupKey e ∈ (step ctx s (.ok ⟨200, body, et, lm⟩)).state.seen_ids) ∧
    (∀ e ∈ ctx.parse body, ∀ rest : List FetchResult,
        countKey (dedupKey e)
          (run ctx (step ctx s (.ok ⟨200, body, et, lm⟩)).state rest).2 = 0) := by
  rw [step_ok_200 rfl, handle200_first hfr]
  dsimp only
  refine ⟨?_, ?_, ?_⟩
  · rw [incidentsOf_cons_log]
    cases hent : ctx.parse body with
    | nil => rfl
    | cons e es => rfl
  · intro e he
    exact addSeen_mem _ he
  · intro e he rest
    have hInv' : InvSt
        ({ etag := if truthy et = true then et else s.etag,
           last_mod := if truthy lm = true then lm else s.last_mod,
           last_hash := some (ctx.hash body),
           seen_ids := addSeen s.seen_ids (ctx.parse body),
           first_run := false } : WState) := fun hcon => by cases hcon
    exact (run_count ctx (dedupKey e) rest _ hInv').2 (addSeen_mem _ he)

/-- Witness for C3 at a concrete input: first poll of the `ctxAB` feed. -/
theorem c3_first_poll_witness :
    incidentsOf (step ctxAB initState (.ok ⟨200, "b1", none, none⟩)).events =
      [mkIncident ctxAB false entA] ∧
    dedupKey entB ∈
      (step ctxAB initState (.ok ⟨200, "b1", none, none⟩)).state.seen_ids ∧
    countKey (dedupKey entB)
      (run ctxAB (step ctxAB initState (.ok ⟨200, "b1", none, none⟩)).state
        [.ok ⟨200, "b2", none, none⟩]).2 = 0 := by
  have h := c3_first_poll ctxAB initState "b1" none none rfl
  exact ⟨h.1, h.2.1 entB (by decide),
         h.2.2 entB (by decide) [.ok ⟨200, "b2", none, none⟩]⟩

/-- Claim C4: on a steady-state changed 200 poll the watcher emits one
`is_new = true` incident per entry whose dedup key is unseen, in reverse
feed order (oldest to newest); with pairwise-distinct keys the new
entries are exactly those whose key is absent from `seen_ids`. -/
theorem c4_steady_state (ctx : Ctx) (s : WState) (body : String)
    (et lm : Option String) (hfr : s.first_run = false)
    (hch : (truthy et || truthy lm) = true ∨
           s.last_hash ≠ some (ctx.hash body)) :
    incidentsOf (step ctx s (.ok ⟨200, body, et, lm⟩)).events =
      ((collectNew s.seen_ids (ctx.parse body)).1.reverse).map
        (mkIncident ctx true) ∧
    (((ctx.parse body).map dedupKey).Nodup →
      (collectNew s.seen_ids (ctx.parse body)).1 =
        (ctx.parse body).filter
          (fun e => !(decide (dedupKey e ∈ s.seen_ids)))) := by
  constructor
  · rw [step_ok_200 rfl, handle200_steady hfr hch]
    dsimp only
    by_cases hemp : (collectNew s.seen_ids (ctx.parse body)).1.isEmpty = true
    · rw [if_pos hemp]
      have hn : (collectNew s.seen_ids (ctx.parse body)).1 = [] :=
        List.isEmpty_iff.mp hemp
      rw [hn]
      rfl
    · rw [if_neg hemp]
      exact incidentsOf_map_incident _ _
  · intro hnd
    exact collectNew_filter hnd

/-- Witness for C4 at the spec's own scenario: a poll returning
`[entC, entB, entA]` (newest first) where only `entB` and `entA` are
unseen emits the incident for `entA` before the one for `entB`. -/
theorem c4_steady_state_witness :
    incidentsOf (step ctxCBA stSeenC (.ok ⟨200, "body", none, none⟩)).events =
      [mkIncident ctxCBA true entA, mkIncident ctxCBA true entB] ∧
    (collectNew stSeenC.seen_ids (ctxCBA.parse "body")).1 = [entB, entA] := by
  have h := c4_steady_state ctxCBA stSeenC "body" none none rfl
    (Or.inr (by decide))
  exact ⟨h.1, h.2 (by decide)⟩

/-- Claim C6 is false as stated: an incident-producing poll is not
followed by a summary log.  On the first poll the history log precedes
the bootstrap incident, and here a steady-state poll that produces an
incident broadcasts that incident as its only event — no log follows. -/
theorem c6_counterexample :
    (step ctxA stSeenC (.ok ⟨200, "body", none, none⟩)).events =
      [Event.incident "A" (mkIncident ctxA true entA)] ∧
    (step ctxA initState (.ok ⟨200, "b", none, none⟩)).events =
      [Event.log (connectedMsg "feed" 1 false) Level.info,
       Event.incident "A" (mkIncident ctxA false entA)] :=
  ⟨rfl, rfl⟩

/-- Claim C6 (amended): on the first poll the history-summary log is
emitted **before** the bootstrap incident; a steady-state poll that
produces incidents emits exactly those incidents, in order, with no
summary log; a steady-state poll that produces none emits a single
ok-level "no new incidents" log. -/
theorem c6_emission_order (ctx : Ctx) (s : WState) (body : String)
    (et lm : Option String) :
    (s.first_run = true →
      (step ctx s (.ok ⟨200, body, et, lm⟩)).events =
        Event.log (connectedMsg ctx.name (ctx.parse body).length
            (truthy et || truthy lm)) Level.info
          :: bootstrapEvents ctx (ctx.parse body)) ∧
    (s.first_run = false →
      ((truthy et || truthy lm) = true ∨
        s.last_hash ≠ some (ctx.hash body)) →
      ((collectNew s.seen_ids (ctx.parse body)).1 = [] →
        (step ctx s (.ok ⟨200, body, et, lm⟩)).events =
          [Event.log (ctx.name ++ ": Monitoring... no new incidents")
            Level.ok]) ∧
      ((collectNew s.seen_ids (ctx.parse body)).1 ≠ [] →
        (step ctx s (.ok ⟨200, body, et, lm⟩)).events =
          (collectNew s.seen_ids (ctx.parse body)).1.reverse.map
            (fun e => Event.incident (dedupKey e) (mkIncident ctx true e)))) := by
  constructor
  · intro hfr
    rw [step_ok_200 rfl, handle200_first hfr]
  · intro hfr hch
    rw [step_ok_200 rfl, handle200_steady hfr hch]
    dsimp only
    constructor
    · intro hnil
      rw [if_pos (by simp [hnil])]
    · intro hnn
      rw [if_neg (by simp [List.isEmpty_iff, hnn])]

/-- Witness for C6 at concrete inputs: the three branches instantiated
on the `ctxA` feed. -/
theorem c6_emission_order_witness :
    (step ctxA initState (.ok ⟨200, "b", none, none⟩)).events =
      Event.log (connectedMsg ctxA.name (ctxA.parse "b").length false)
          Level.info
        :: bootstrapEvents ctxA (ctxA.parse "b") ∧
    (step ctxA stSeenC (.ok ⟨200, "body", none, none⟩)).events =
      (collectNew stSeenC.seen_ids (ctxA.parse "body")).1.reverse.map
        (fun e => Event.incident (dedupKey e) (mkIncident ctxA true e)) ∧
    (step ctxA stSeenA (.ok ⟨200, "body", none, none⟩)).events =
      [Event.log "feed: Monitoring... no new incidents" Level.ok] := by
  refine ⟨(c6_emission_order ctxA initState "b" none none).1 rfl, ?_, ?_⟩
  · exact ((c6_emission_order ctxA stSeenC "body" none none).2 rfl
      (Or.inr (by decide))).2 (by decide)
  · exact ((c6_emission_order ctxA stSeenA "body" none none).2 rfl
      (Or.inr (by decide))).1 (by decide)

/-- Claim C9: every incident a poll cycle emits is built by the shared
incident constructor, whose detail field is the cleaned content string
truncated to 400 characters: longer cleaned strings are cut to exactly
400 characters, shorter ones are kept unchanged. -/
theorem c9_detail_truncation :
    (∀ (ctx : Ctx) (s : WState) (r : FetchResult) (k : String) (i : Incident),
        Event.incident k i ∈ (step ctx s r).events →
          ∃ e b, k = dedupKey e ∧ i = mkIncident ctx b e) ∧
    (∀ (ctx : Ctx) (b : Bool) (e : Entry),
        (mkIncident ctx b e).detail =
          takeChars 400 (clean_html (content_raw e))) ∧
    (∀ t : String, 400 < t.data.length →
        (takeChars 400 t).data.length = 400) ∧
    (∀ t : String, t.data.length ≤ 400 → takeChars 400 t = t) := by
  refine ⟨?_, fun ctx b e => rfl, ?_, ?_⟩
  · intro ctx s r k i hmem
    cases r with
    | exn msg =>
      rw [step_exn] at hmem
      simp at hmem
    | ok resp =>
      by_cases h304 : resp.status = 304
      · rw [step_ok_304 h304] at hmem
        simp at hmem
      · by_cases h200 : resp.status = 200
        · rw [step_ok_200 h200] at hmem
          by_cases hsup : suppCond ctx s resp = true
          · rw [handle200_suppressed hsup] at hmem
            simp at hmem
          · by_cases hfr : s.first_run = true
            · rw [handle200_first hfr] at hmem
              rcases List.mem_cons.mp hmem with heq | hmem'
              · cases heq
              · cases hent : ctx.parse resp.body with
                | nil =>
                  rw [hent] at hmem'
                  simp [bootstrapEvents] at hmem'
                | cons e es =>
                  rw [hent] at hmem'
                  simp only [bootstrapEvents, List.mem_singleton] at hmem'
                  injection hmem' with hk hi
                  exact ⟨e, false, hk, hi⟩
            · have hfr' : s.first_run = false := by
                cases hb : s.first_run
                · rfl
                · exact absurd hb hfr
              rw [handle200_steady hfr' (suppCond_cases hfr' hsup)] at hmem
              by_cases hemp :
                  (collectNew s.seen_ids (ctx.parse resp.body)).1.isEmpty = true
              · rw [if_pos hemp] at hmem
                simp at hmem
              · rw [if_neg hemp] at hmem
                obtain ⟨e, _, heq⟩ := List.mem_map.mp hmem
                injection heq with hk hi
                exact ⟨e, true, hk.symm, hi.symm⟩
        · rw [step_ok_other h304 h200] at hmem
          simp at hmem
  · intro t ht
    show (t.data.take 400).length = 400
    rw [List.length_take]
    exact min_eq_left (by omega)
  · intro t ht
    show String.mk (t.data.take 400) = t
    rw [List.take_of_length_le ht]

/-- Witness for C9 at concrete inputs: an incident emitted by a
steady-state poll of the `ctxAB` feed, plus truncation at a 401- and a
2-character cleaned string. -/
theorem c9_detail_truncation_witness :
    (∃ e b, "A" = dedupKey e ∧
        mkIncident ctxAB true entA = mkIncident ctxAB b e) ∧
    (mkIncident ctxAB true entA).detail =
      takeChars 400 (clean_html (content_raw entA)) ∧
    (takeChars 400 (String.mk (List.replicate 401 'a'))).data.length = 400 ∧
    takeChars 400 "ab" = "ab" :=
  ⟨c9_detail_truncation.1 ctxAB stSeenC (.ok ⟨200, "b2", none, none⟩) "A"
      (mkIncident ctxAB true entA) (by decide),
   c9_detail_truncation.2.1 ctxAB true entA,
   c9_detail_truncation.2.2.1 (String.mk (List.replicate 401 'a'))
      (by show 400 < (List.replicate 401 'a').length
          rw [List.length_replicate]
          omega),
   c9_detail_truncation.2.2.2 "ab" (by decide)⟩


end OpenAIStatus
